import Mathlib

/-!
Verification of the Personal Expense Tracker core.

Shallow embedding of `expense_tracker.py` (one file holding a Streamlit web UI
and a CLI variant).  Calendar dates are modelled as day numbers in the
proleptic Gregorian calendar (the granularity at which both variants compare
dates); amounts (Python floats holding decimal user input) are modelled as
rationals; the persisted CSV ledger is modelled as the in-memory list of
records it serialises (a well-formed record round-trips through
`save_df`/`load_df` unchanged: dates render as `YYYY-MM-DD` and re-parse,
numeric amounts re-parse, categories and descriptions are plain text).
-/

namespace ExpenseTracker

/-- One expense record: the four CSV columns `date,category,amount,description`.
`date` is a day number (pandas timestamps at midnight compare as their day). -/
structure Record where
  date : Int
  category : String
  amount : Rat
  description : String
deriving DecidableEq, Repr

/-! Calendar arithmetic: proleptic Gregorian, as `pd.Timestamp` day numbers. -/

/-- Gregorian leap-year test. -/
def isLeap (y : Nat) : Bool := (y % 4 == 0 && y % 100 != 0) || y % 400 == 0

/-- Length of month `m` (1..12) of year `y`; 0 for out-of-range `m`. -/
def daysInMonth (y : Nat) : Nat → Nat
  | 1 => 31
  | 2 => if isLeap y then 29 else 28
  | 3 => 31
  | 4 => 30
  | 5 => 31
  | 6 => 30
  | 7 => 31
  | 8 => 31
  | 9 => 30
  | 10 => 31
  | 11 => 30
  | 12 => 31
  | _ => 0

/-- Days of year `y` strictly before month `m` (sum of the lengths of months `1..m-1`). -/
def daysBeforeMonth (y : Nat) : Nat → Nat
  | 0 => 0
  | m + 1 => daysBeforeMonth y m + daysInMonth y m

/-- Number of leap years in `1..y`. -/
def leapDays (y : Nat) : Nat := y / 4 - y / 100 + y / 400

/-- Days strictly before January 1 of year `y` (counting from year 1). -/
def daysBeforeYear (y : Nat) : Nat := 365 * (y - 1) + leapDays (y - 1)

/-- Day number of calendar date `y-m-d` (day 0 is 0001-01-01). -/
def toDays (y m d : Nat) : Nat := daysBeforeYear y + daysBeforeMonth y m + (d - 1)

/-! Input parsing for the CLI `add_expense` (lines 141-170).

The CLI reads the date with `datetime.strptime(date_in, "%Y-%m-%d")` and the
amount with `float(amt_raw)`.  Inputs are modelled after `.strip()` has been
applied (both the source and `float()` itself trim surrounding whitespace).
CPython normalises Unicode decimal digits to ASCII before either parse runs,
so digit-carrying inputs are modelled by their ASCII normalisation. -/

def isDigit (c : Char) : Bool := '0' ≤ c && c ≤ '9'

def isAlpha (c : Char) : Bool := ('a' ≤ c && c ≤ 'z') || ('A' ≤ c && c ≤ 'Z')

def upChar (c : Char) : Char := if 'a' ≤ c && c ≤ 'z' then Char.ofNat (c.toNat - 32) else c

def downChar (c : Char) : Char := if 'A' ≤ c && c ≤ 'Z' then Char.ofNat (c.toNat + 32) else c

/-- Value of a digit string (most significant first). -/
def natOfDigits (l : List Char) : Nat := l.foldl (fun n c => 10 * n + (c.toNat - 48)) 0

/-- Parse a nonempty all-digit character group. -/
def parseNatChars (l : List Char) : Option Nat :=
  if l ≠ [] && l.all isDigit then some (natOfDigits l) else none

/-- Split a character list on the dash separator (the literal dashes of the
`"%Y-%m-%d"` format). -/
def splitDash : List Char → List (List Char)
  | [] => [[]]
  | c :: cs =>
    if c = '-' then [] :: splitDash cs
    else
      match splitDash cs with
      | g :: gs => (c :: g) :: gs
      | [] => [[c]]

/-- Model of `datetime.strptime(s, "%Y-%m-%d")`: three dash-separated digit
groups of the widths the strptime directives compile to (`%Y` exactly four
digits, `%m` and `%d` one or two digits), whose values form a valid calendar
date: strptime's field regexes bound the month and the `datetime` constructor
rejects year 0 and days beyond the month's length.  Returns the
(year, month, day) triple. -/
def parseDate (s : String) : Option (Nat × Nat × Nat) :=
  match splitDash s.data with
  | [ys, ms, ds] =>
    match parseNatChars ys, parseNatChars ms, parseNatChars ds with
    | some y, some m, some d =>
      if ys.length = 4 && ms.length ≤ 2 && ds.length ≤ 2
          && 1 ≤ y && 1 ≤ m && m ≤ 12 && 1 ≤ d && d ≤ daysInMonth y m then
        some (y, m, d)
      else none
    | _, _, _ => none
  | _ => none

/-- Continuation of a digit group after its first digit: further digits with
single underscores allowed strictly between digits (PEP 515). -/
def digitsUGo : List Char → Bool
  | [] => true
  | '_' :: c :: cs => isDigit c && digitsUGo cs
  | c :: cs => isDigit c && digitsUGo cs

/-- One or more digits with single underscores strictly between digits
(no leading, trailing or doubled underscore). -/
def digitsU : List Char → Bool
  | [] => false
  | c :: cs => isDigit c && digitsUGo cs

/-- Drop the underscore separators of a validated digit group. -/
def stripUnderscores (l : List Char) : List Char := l.filter fun c => c ≠ '_'

/-- Split at the first exponent marker: (mantissa, characters after `e`/`E`),
the second component `none` when no marker occurs. -/
def splitExp : List Char → List Char × Option (List Char)
  | [] => ([], none)
  | 'e' :: cs => ([], some cs)
  | 'E' :: cs => ([], some cs)
  | c :: cs =>
    let r := splitExp cs
    (c :: r.1, r.2)

/-- Split at the first dot: (integer part, fractional characters), the second
component `none` when no dot occurs. -/
def splitDot : List Char → List Char × Option (List Char)
  | [] => ([], none)
  | '.' :: cs => ([], some cs)
  | c :: cs =>
    let r := splitDot cs
    (c :: r.1, r.2)

/-- Value of a fractional digit group. -/
def fracVal (fp : List Char) : Rat :=
  (natOfDigits (stripUnderscores fp) : Rat) / (10 : Rat) ^ (stripUnderscores fp).length

/-- Mantissa of a float literal: `digits`, `digits.`, `digits.digits` or
`.digits`, with underscore separators inside each digit group. -/
def parseMantissa (l : List Char) : Option Rat :=
  match splitDot l with
  | (ip, none) => if digitsU ip then some (natOfDigits (stripUnderscores ip)) else none
  | (ip, some fp) =>
    if ip = [] then
      if digitsU fp then some (fracVal fp) else none
    else
      if digitsU ip && (fp = [] || digitsU fp) then
        some ((natOfDigits (stripUnderscores ip) : Rat) + fracVal fp)
      else none

/-- Scale by a signed power of ten (the exponent part of a float literal). -/
def pow10 (e : Int) : Rat :=
  if 0 ≤ e then (10 : Rat) ^ e.toNat else 1 / (10 : Rat) ^ (-e).toNat

/-- Exponent of a float literal: an optional sign then a digit group. -/
def parseExpPart (l : List Char) : Option Int :=
  match l with
  | '+' :: rest => if digitsU rest then some ((natOfDigits (stripUnderscores rest) : Int)) else none
  | '-' :: rest => if digitsU rest then some (-(natOfDigits (stripUnderscores rest) : Int)) else none
  | rest => if digitsU rest then some ((natOfDigits (stripUnderscores rest) : Int)) else none

/-- Finite float literal without its sign: mantissa with an optional exponent
part (`12`, `12.5`, `.5e3`, `1_000E-2`, ...). -/
def parseFinite (l : List Char) : Option Rat :=
  match splitExp l with
  | (m, none) => parseMantissa m
  | (m, some ex) =>
    match parseMantissa m, parseExpPart ex with
    | some q, some e => some (q * pow10 e)
    | _, _ => none

/-- The non-finite spellings `float()` accepts (sign handled by the caller):
`inf`, `infinity` and `nan`, case-insensitively. -/
def isInfNanBody (l : List Char) : Bool :=
  let low := l.map downChar
  low == "inf".data || low == "infinity".data || low == "nan".data

/-- Python `float(s)` on stripped input: `none` when `float()` raises (the
`except` path of line 160); `some none` when `float()` accepts a non-finite
spelling (`inf`/`infinity`/`nan`, optionally signed, any case), whose value
has no rational counterpart; `some (some q)` when `float()` returns the
finite value `q`. -/
def pyFloat (s : String) : Option (Option Rat) :=
  match s.data with
  | '-' :: rest =>
    if isInfNanBody rest then some none
    else (parseFinite rest).map fun q => some (-q)
  | '+' :: rest =>
    if isInfNanBody rest then some none
    else (parseFinite rest).map fun q => some q
  | l =>
    if isInfNanBody l then some none
    else (parseFinite l).map fun q => some q

/-- The finite outcomes of `float(s)`: the parsed rational when `float()`
returns a finite value, `none` when it raises or returns a non-finite float.
Note that a leading `-` is accepted: `float` parses negative numbers. -/
def parseFloat (s : String) : Option Rat :=
  match pyFloat s with
  | some (some q) => some q
  | _ => none

/-- Stand-in amount for the non-finite spellings `float()` accepts: the
program then stores a non-finite float, which no rational represents.  No
theorem in this file concerns the amount field of such a record — only the
fact that the append happens; the claims' amounts are finite. -/
def nonFiniteAmount : Rat := 0

/-! Model of `str.title()` (line 167 normalises the category with it). -/

/-- Title-casing as in Python: a letter is upper-cased when the previous character is not a
letter, lower-cased otherwise. -/
def titleAux : Bool → List Char → List Char
  | _, [] => []
  | prevAlpha, c :: cs =>
    (if isAlpha c then (if prevAlpha then downChar c else upChar c) else c)
      :: titleAux (isAlpha c) cs

def title (s : String) : String := ⟨titleAux false s.data⟩

/-! The `add_expense` operation (CLI lines 141-170). -/

/-- The four console inputs of `add_expense`, already `.strip()`ed. -/
structure AddInput where
  dateIn : String
  categoryIn : String
  amountIn : String
  descIn : String

/-- What `add_expense` prints before returning: success, or one of the two
validation errors (each of which aborts before any load or write). -/
inductive AddOutcome
  | added
  | invalidDate
  | invalidAmount
deriving DecidableEq, Repr

/-- The CLI `add_expense` (lines 141-170) with the persisted ledger passed explicitly:
an empty date input defaults to today; an unparsable date aborts; an empty
category defaults to `Other`; an amount `float()` raises on aborts; otherwise
the record `{date, category.title(), amount, description}` is appended (load,
`df.append`, save) and the new ledger is persisted — also when `float()`
accepts a non-finite spelling, in which case the stored amount is outside the
rational model (see `nonFiniteAmount`). -/
def add_expense (today : Nat) (inp : AddInput) (ledger : List Record) :
    List Record × AddOutcome :=
  let dateOpt : Option Nat :=
    if inp.dateIn = "" then some today
    else
      match parseDate inp.dateIn with
      | some (y, m, d) => some (toDays y m d)
      | none => none
  match dateOpt with
  | none => (ledger, .invalidDate)
  | some date =>
    let category := if inp.categoryIn = "" then "Other" else inp.categoryIn
    match pyFloat inp.amountIn with
    | none => (ledger, .invalidAmount)
    | some none =>
      (ledger ++ [⟨(date : Int), title category, nonFiniteAmount, inp.descIn⟩], .added)
    | some (some amount) =>
      (ledger ++ [⟨(date : Int), title category, amount, inp.descIn⟩], .added)

/-- Loading (`load_df`, lines 129-136) on the persisted ledger: every persisted record,
dates and amounts parsed back.  For well-formed records the CSV round-trip is
the identity (see the file header), so loading returns the persisted list. -/
def loadAll (persisted : List Record) : List Record := persisted

/-! Aggregation (CLI `summary_period`, lines 182-225; Streamlit Summary, lines 62-103). -/

/-- Total of the amount column: `sub["amount"].sum()` (line 212, line 82). -/
def totalAmount (l : List Record) : Rat := (l.map Record.amount).sum

/-- Summed amount of the records of `l` whose category is exactly `c`: one
group of `groupby("category")["amount"].sum()`. -/
def sumFor (l : List Record) (c : String) : Rat :=
  ((l.filter fun r => r.category == c).map Record.amount).sum

/-- The distinct categories of `l` in ascending key order: `groupby` with the
default `sort=True` emits its groups sorted by key, not in appearance order. -/
def sortedCats (l : List Record) : List String :=
  ((l.map Record.category).dedup).insertionSort (· ≤ ·)

/-- Descending sort of (category, sum) rows by summed amount, modelling
`.sort_values("amount", ascending=False)` (line 214) and
`.sort_values(ascending=False)` (line 86).  pandas argsorts with numpy's
default introsort, reversing before and after for the descending order; up to
numpy's insertion-sort cutoff (subarrays of at most 16 elements) that net sort
is stable, so tied rows keep their pre-sort key-ascending order, and the model
fixes exactly that order.  Beyond the cutoff the program's tie order is an
unspecified introsort artifact: theorems about tie order therefore carry an
at-most-16-row hypothesis, and theorems without one use only properties every
correct descending sort shares (the row multiset and the descending sums). -/
def sortByAmountDesc (rows : List (String × Rat)) : List (String × Rat) :=
  rows.insertionSort fun a b => b.2 ≤ a.2

instance : IsTotal (String × Rat) fun a b => b.2 ≤ a.2 := ⟨fun a b => le_total b.2 a.2⟩

instance : IsTrans (String × Rat) fun a b => b.2 ≤ a.2 := ⟨fun _ _ _ h1 h2 => le_trans h2 h1⟩

/-- The category table before the descending sort: one `(category, sum)` row
per distinct category, keys ascending (the `groupby` output order). -/
def byCatRows (l : List Record) : List (String × Rat) :=
  (sortedCats l).map fun c => (c, sumFor l c)

/-- Line 214 (and line 86): group by exact category value, sum amounts per
group, sort the rows descending by summed amount. -/
def byCategory (l : List Record) : List (String × Rat) :=
  sortByAmountDesc (byCatRows l)

/-- Percentage of one category row (line 220): `row["amount"] / total * 100`,
computed with no special case for a zero total. -/
def percentageOf (categorySum total : Rat) : Rat := categorySum / total * 100

/-- The divisors of the divisions performed by the percentage loop
(lines 219-221): one division per category row, each dividing by the period
total.  The loop runs only when the filtered frame is nonempty (line 208
returns early on an empty frame). -/
def pctDivisors (sub : List Record) : List Rat :=
  (byCategory sub).map fun _ => totalAmount sub

/-- Distinct categories of `l` in order of first appearance, skipping the ones
already in `seen` (used only to state the tie-breaking rule the spec claims). -/
def firstAppearanceCats (seen : List String) : List Record → List String
  | [] => []
  | r :: l =>
    if r.category ∈ seen then firstAppearanceCats seen l
    else r.category :: firstAppearanceCats (r.category :: seen) l

/-- Spec-worded variant of `byCategory`, for comparison only: group by exact
category, sum per group, stable-sort descending by sum with the groups taken
in first-appearance order (the tie-break the spec asserts). -/
def byCategoryFirstAppearance (l : List Record) : List (String × Rat) :=
  sortByAmountDesc ((firstAppearanceCats [] l).map fun c => (c, sumFor l c))

/-! Period selection. -/

/-- CLI last-N-days range (lines 191-193): `end` is today at midnight, `start`
is `end - Timedelta(days=days-1)` so that today is included. -/
def lastNDaysRange (today days : Int) : Int × Int := (today - (days - 1), today)

/-- The inclusive date mask of lines 194 and 204: keep the records with
`start <= date <= end`. -/
def filterRange (l : List Record) (lo hi : Int) : List Record :=
  l.filter fun r => lo ≤ r.date && r.date ≤ hi

/-- CLI last-N-days selection (lines 191-194): the inclusive mask over the
last-N-days range. -/
def summaryLastNDays (today days : Int) (l : List Record) : List Record :=
  filterRange l (lastNDaysRange today days).1 (lastNDaysRange today days).2

/-- CLI calendar-month range (lines 196-204): start is the 1st of the month;
end is the 1st of the following month (January of `year+1` after December)
minus one day. -/
def monthRange (year month : Nat) : Nat × Nat :=
  (toDays year month 1,
   (if month = 12 then toDays (year + 1) 1 1 else toDays year (month + 1) 1) - 1)

/-- CLI calendar-month selection (lines 196-204, month branch). -/
def summaryMonth (year month : Nat) (l : List Record) : List Record :=
  filterRange l ((monthRange year month).1 : Int) ((monthRange year month).2 : Int)

/-- The row order `byCategory` actually produces: strictly larger sums first,
tied sums in ascending category-key order. -/
def catRowOrder (a b : String × Rat) : Prop :=
  b.2 < a.2 ∨ (a.2 = b.2 ∧ a.1 < b.1)

/-- The three period choices of the Streamlit Summary menu (line 69). -/
inductive Period
  | weekly
  | monthly30
  | allTime

/-- Streamlit Summary period filter (lines 69-77).  Here `now` models
`datetime.today()`: a full timestamp carrying the time of day, hence a
rational day number.  `Timedelta(days=k)` subtracts `k` whole days; the weekly
and monthly branches keep `Date >= start_date` with no upper bound, and the
All Time branch keeps the frame unchanged. -/
def streamlitFilter (now : Rat) : Period → List Record → List Record
  | .weekly, l => l.filter fun r => decide (now - 7 ≤ (r.date : Rat))
  | .monthly30, l => l.filter fun r => decide (now - 30 ≤ (r.date : Rat))
  | .allTime, l => l

/-- The CLI weekly summary selection (`prompt_summary` option 1, line 234:
`summary_period(days=7)`); `datetime.today().date()` is the floor of the
timestamp `now`. -/
def cliWeekly (now : Rat) (l : List Record) : List Record :=
  summaryLastNDays ⌊now⌋ 7 l

/-- The Streamlit weekly summary selection (lines 70-72), from the same
timestamp `now`. -/
def webWeekly (now : Rat) (l : List Record) : List Record :=
  streamlitFilter now .weekly l


theorem pyFloat_of_parseFloat {s : String} {a : Rat} (h : parseFloat s = some a) :
    pyFloat s = some (some a) := by
  rcases hq : pyFloat s with - | aq
  · simp [parseFloat, hq] at h
  · rcases aq with - | q
    · simp [parseFloat, hq] at h
    · simp only [parseFloat, hq] at h
      exact congrArg some h

/-- C1: with valid inputs (a parsable date and amount) `add_expense` succeeds,
the persisted ledger length grows by exactly one, and a subsequent full load
returns a ledger whose last element carries the appended record's date,
category, amount and description. -/
theorem c1_append_then_load_roundtrip (today : Nat) (inp : AddInput) (l : List Record)
    (y m d : Nat) (a : Rat)
    (hne : inp.dateIn ≠ "")
    (hdate : parseDate inp.dateIn = some (y, m, d))
    (hamt : parseFloat inp.amountIn = some a) :
    (add_expense today inp l).2 = AddOutcome.added ∧
    (loadAll (add_expense today inp l).1).length = l.length + 1 ∧
    (loadAll (add_expense today inp l).1).getLast? =
      some ⟨(toDays y m d : Int),
            title (if inp.categoryIn = "" then "Other" else inp.categoryIn),
            a, inp.descIn⟩ := by
  have hq := pyFloat_of_parseFloat hamt
  simp [add_expense, loadAll, hne, hdate, hq]

theorem c1_witness :
    (add_expense 0 ⟨"2024-01-05", "food", "12.5", "x"⟩ []).2 = AddOutcome.added ∧
    (loadAll (add_expense 0 ⟨"2024-01-05", "food", "12.5", "x"⟩ []).1).length =
      List.length ([] : List Record) + 1 ∧
    (loadAll (add_expense 0 ⟨"2024-01-05", "food", "12.5", "x"⟩ []).1).getLast? =
      some ⟨(toDays 2024 1 5 : Int),
            title (if ("food" : String) = "" then "Other" else "food"), 25/2, "x"⟩ :=
  c1_append_then_load_roundtrip 0 ⟨"2024-01-05", "food", "12.5", "x"⟩ [] 2024 1 5 (25/2)
    (by decide) (by decide)
    (by
      simp [parseFloat, pyFloat, isInfNanBody, downChar, parseFinite, splitExp, splitDot,
        parseMantissa, fracVal, digitsU, digitsUGo, isDigit, stripUnderscores, natOfDigits]
      norm_num)

/-- C10: a successful add leaves every previously persisted record unchanged in
content and relative order, and places the new record at the end: the new
ledger is the old ledger with one record appended. -/
theorem c10_add_frame (today : Nat) (inp : AddInput) (l : List Record)
    (h : (add_expense today inp l).2 = AddOutcome.added) :
    ∃ r, (add_expense today inp l).1 = l ++ [r] := by
  rcases hopt : (if inp.dateIn = "" then some today
    else
      match parseDate inp.dateIn with
      | some (y, m, d) => some (toDays y m d)
      | none => none) with - | date
  · simp [add_expense, hopt] at h
  · rcases hfl : pyFloat inp.amountIn with - | aq
    · simp [add_expense, hopt, hfl] at h
    · rcases aq with - | a
      · exact ⟨⟨(date : Int), title (if inp.categoryIn = "" then "Other" else inp.categoryIn),
          nonFiniteAmount, inp.descIn⟩, by simp [add_expense, hopt, hfl]⟩
      · exact ⟨⟨(date : Int), title (if inp.categoryIn = "" then "Other" else inp.categoryIn),
          a, inp.descIn⟩, by simp [add_expense, hopt, hfl]⟩

theorem c10_witness :
    ∃ r, (add_expense 0 ⟨"", "food", "12", "x"⟩ [⟨0, "Rent", 3, ""⟩]).1 =
      [⟨0, "Rent", 3, ""⟩] ++ [r] :=
  c10_add_frame 0 ⟨"", "food", "12", "x"⟩ [⟨0, "Rent", 3, ""⟩] (by decide)

/-- C6 (amended): a nonempty date string that strptime rejects for the
`%Y-%m-%d` format (four-digit year, one- or two-digit month and day, a valid
calendar date) aborts with the date error and leaves the ledger unchanged; an
amount string `float()` raises on — neither a finite decimal/exponent literal
(underscore separators allowed) nor a signed inf/infinity/nan spelling —
aborts with the amount error and leaves the ledger unchanged; no partial write
in either case.  Unlike the claim, a parsable negative amount is accepted, not
rejected: `float()` checks parsability only, not non-negativity. -/
theorem c6_amended_validation_aborts (today : Nat) (inp : AddInput) (l : List Record) :
    (inp.dateIn ≠ "" → parseDate inp.dateIn = none →
      add_expense today inp l = (l, AddOutcome.invalidDate)) ∧
    (pyFloat inp.amountIn = none →
      (add_expense today inp l).1 = l ∧ (add_expense today inp l).2 ≠ AddOutcome.added) := by
  constructor
  · intro hne hd
    simp [add_expense, hne, hd]
  · intro hfl
    rcases hopt : (if inp.dateIn = "" then some today
      else
        match parseDate inp.dateIn with
        | some (y, m, d) => some (toDays y m d)
        | none => none) with - | date
    · simp [add_expense, hopt]
    · simp [add_expense, hopt, hfl]

theorem c6_amended_witness :
    (add_expense 0 ⟨"169-1-5", "food", "5", ""⟩ [] = ([], AddOutcome.invalidDate)) ∧
    ((add_expense 0 ⟨"2024-01-05", "food", "five", ""⟩ []).1 = [] ∧
     (add_expense 0 ⟨"2024-01-05", "food", "five", ""⟩ []).2 ≠ AddOutcome.added) :=
  ⟨(c6_amended_validation_aborts 0 ⟨"169-1-5", "food", "5", ""⟩ []).1 (by decide) (by decide),
   (c6_amended_validation_aborts 0 ⟨"2024-01-05", "food", "five", ""⟩ []).2 (by decide)⟩

/-- C6 counterexample: the amount string `-5` is not a valid non-negative
number, yet the operation is not aborted: `add_expense` parses it, reports
success and appends a record with amount `-5`, changing the persisted ledger. -/
theorem c6_counterexample :
    parseFloat "-5" = some (-5) ∧
    (add_expense 0 ⟨"2024-01-05", "food", "-5", ""⟩ []).2 = AddOutcome.added ∧
    (add_expense 0 ⟨"2024-01-05", "food", "-5", ""⟩ []).1 ≠ [] := by
  refine ⟨?_, by decide, by decide⟩
  simp [parseFloat, pyFloat, isInfNanBody, downChar, parseFinite, splitExp, splitDot,
    parseMantissa, digitsU, digitsUGo, isDigit, stripUnderscores, natOfDigits]

/-- Fidelity spot-checks of the two input grammars: `float()` accepts exponent
literals, underscore separators and signed non-finite spellings, and strptime
enforces its field widths (four-digit year, at most two-digit month and day,
shorter fields zero-padded or bare). -/
theorem parse_fidelity_checks :
    parseFloat "1e5" = some 100000 ∧
    parseFloat "1_000" = some 1000 ∧
    pyFloat "inf" = some none ∧
    pyFloat "-Infinity" = some none ∧
    pyFloat "nan" = some none ∧
    parseDate "169-1-5" = none ∧
    parseDate "2024-012-05" = none ∧
    parseDate "02024-1-5" = none ∧
    parseDate "0169-1-5" = some (169, 1, 5) := by
  refine ⟨?_, ?_, by decide, by decide, by decide, by decide, by decide, by decide, by decide⟩
  · simp [parseFloat, pyFloat, isInfNanBody, downChar, parseFinite, splitExp, splitDot,
      parseMantissa, parseExpPart, fracVal, digitsU, digitsUGo, isDigit, stripUnderscores,
      natOfDigits, pow10]
    norm_num
  · simp [parseFloat, pyFloat, isInfNanBody, downChar, parseFinite, splitExp, splitDot,
      parseMantissa, parseExpPart, fracVal, digitsU, digitsUGo, isDigit, stripUnderscores,
      natOfDigits, pow10]

/-- C8: filtering with the All Time period returns the full ledger unchanged,
record for record. -/
theorem c8_allTime_identity (now : Rat) (l : List Record) :
    streamlitFilter now Period.allTime l = l ∧
    ∀ i : Nat, (streamlitFilter now Period.allTime l)[i]? = l[i]? :=
  ⟨rfl, fun _ => rfl⟩

/-- C3: the CLI last-N-days period is the inclusive range
[today - (n-1), today]; the summary keeps exactly the records whose date lies
in that range; and with n = 7 on the fixed today 2024-01-10 the range is
[2024-01-04, 2024-01-10]. -/
theorem c3_lastNDays_range (today n : Int) (l : List Record) (_hn : 1 ≤ n) :
    lastNDaysRange today n = (today - (n - 1), today) ∧
    (∀ r, r ∈ summaryLastNDays today n l ↔
      r ∈ l ∧ (today - (n - 1) ≤ r.date ∧ r.date ≤ today)) ∧
    lastNDaysRange (toDays 2024 1 10 : Int) 7 =
      ((toDays 2024 1 4 : Int), (toDays 2024 1 10 : Int)) := by
  refine ⟨rfl, ?_, by decide⟩
  intro r
  simp [summaryLastNDays, filterRange, lastNDaysRange]

theorem c3_witness :
    lastNDaysRange 0 7 = (0 - (7 - 1), 0) ∧
    (∀ r, r ∈ summaryLastNDays 0 7 [] ↔
      r ∈ ([] : List Record) ∧ (0 - (7 - 1) ≤ r.date ∧ r.date ≤ 0)) ∧
    lastNDaysRange (toDays 2024 1 10 : Int) 7 =
      ((toDays 2024 1 4 : Int), (toDays 2024 1 10 : Int)) :=
  c3_lastNDays_range 0 7 [] (by decide)

/-- A nonempty ledger yields a nonempty category table. -/
theorem byCategory_ne_nil {l : List Record} (h : l ≠ []) : byCategory l ≠ [] := by
  have h1 : (l.map Record.category).dedup ≠ [] := by
    simp [List.dedup_eq_nil, h]
  have h2 : sortedCats l ≠ [] := by
    intro hs
    have hperm := List.perm_insertionSort (α := String) (· ≤ ·) ((l.map Record.category).dedup)
    rw [sortedCats] at hs
    rw [hs] at hperm
    exact h1 hperm.symm.eq_nil
  have h3 : byCatRows l ≠ [] := by
    simpa [byCatRows] using h2
  intro hb
  have hperm := List.perm_insertionSort (fun a b : String × Rat => b.2 ≤ a.2) (byCatRows l)
  rw [byCategory, sortByAmountDesc] at hb
  rw [hb] at hperm
  exact h3 hperm.symm.eq_nil

/-- C2 (amended): the percentage of each category row is computed as
`categorySum / total * 100` with no zero-total special case, and whenever the
selected period is nonempty with a zero total every division of the loop has
divisor 0 — a division by zero is performed (Python float division, yielding
`nan`, not the claimed 0). -/
theorem c2_amended_zero_total_divides_by_zero (sub : List Record)
    (h1 : sub ≠ []) (h2 : totalAmount sub = 0) :
    (∀ s t : Rat, percentageOf s t = s / t * 100) ∧ (0 : Rat) ∈ pctDivisors sub := by
  refine ⟨fun _ _ => rfl, ?_⟩
  obtain ⟨p, hp⟩ := List.exists_mem_of_ne_nil _ (byCategory_ne_nil h1)
  have : totalAmount sub ∈ pctDivisors sub := List.mem_map_of_mem _ hp
  rwa [h2] at this

theorem c2_amended_witness :
    (∀ s t : Rat, percentageOf s t = s / t * 100) ∧
    (0 : Rat) ∈ pctDivisors [⟨0, "Food", 0, ""⟩] :=
  c2_amended_zero_total_divides_by_zero [⟨0, "Food", 0, ""⟩] (by decide)
    (by simp [totalAmount])

/-- C2 counterexample: a selected period holding one record of amount 0 is
nonempty, so the percentage loop runs, and its division is performed with
divisor 0 — contradicting the claim that the summary never divides by zero
when all amounts in the period are 0. -/
theorem c2_counterexample :
    ([⟨0, "Food", 0, ""⟩] : List Record) ≠ [] ∧
    totalAmount [⟨0, "Food", 0, ""⟩] = 0 ∧
    (0 : Rat) ∈ pctDivisors [⟨0, "Food", 0, ""⟩] := by
  refine ⟨by decide, by simp [totalAmount], ?_⟩
  simp [pctDivisors, byCategory, sortByAmountDesc, byCatRows, sortedCats, totalAmount]

/-- C9 counterexample: from the timestamp of midnight of day 0 and a ledger
holding one record dated day 5 (a future-dated expense), the web-UI weekly
filter keeps the record while the CLI weekly filter drops it — the two
variants select different sets of records from the same ledger. -/
theorem c9_counterexample :
    webWeekly 0 [⟨5, "Food", 1, ""⟩] = [⟨5, "Food", 1, ""⟩] ∧
    cliWeekly 0 [⟨5, "Food", 1, ""⟩] = [] := by
  constructor
  · simp [webWeekly, streamlitFilter]
    norm_num
  · simp [cliWeekly, summaryLastNDays, filterRange, lastNDaysRange]

/-- C9 (amended): the weekly filters of the two variants do not select the
same set in general; one containment does hold: every record the CLI weekly
summary keeps, the web-UI weekly filter keeps as well (the web filter's lower
bound `now - 7` lies strictly below the CLI's `today - 6`, and the web filter
has no upper bound at all). -/
theorem c9_amended_cli_weekly_subset_web (now : Rat) (l : List Record) (r : Record)
    (h : r ∈ cliWeekly now l) : r ∈ webWeekly now l := by
  simp [cliWeekly, summaryLastNDays, filterRange, lastNDaysRange] at h
  obtain ⟨hmem, hlo, _⟩ := h
  have h1 : now < (⌊now⌋ : Rat) + 1 := Int.lt_floor_add_one now
  have h2 : ((⌊now⌋ : Int) : Rat) - 6 ≤ (r.date : Rat) := by
    have hlo6 : ⌊now⌋ - 6 ≤ r.date := by omega
    have : ((⌊now⌋ - 6 : Int) : Rat) ≤ ((r.date : Int) : Rat) := Int.cast_le.mpr hlo6
    push_cast at this ⊢
    linarith
  simp only [webWeekly, streamlitFilter, List.mem_filter, decide_eq_true_eq]
  exact ⟨hmem, by linarith⟩

theorem c9_amended_witness :
    (⟨0, "Food", 1, ""⟩ : Record) ∈ webWeekly 0 [⟨0, "Food", 1, ""⟩] :=
  c9_amended_cli_weekly_subset_web 0 [⟨0, "Food", 1, ""⟩] ⟨0, "Food", 1, ""⟩
    (by simp [cliWeekly, summaryLastNDays, filterRange, lastNDaysRange])

theorem leapDays_succ (p : Nat) :
    leapDays (p + 1) = leapDays p + (if isLeap (p + 1) then 1 else 0) := by
  have h4 := Nat.succ_div p 4
  have h100 := Nat.succ_div p 100
  have h400 := Nat.succ_div p 400
  have hle1 : p / 100 ≤ p / 4 := Nat.div_le_div_left (by norm_num) (by norm_num)
  have hle2 : p / 400 ≤ p / 100 := Nat.div_le_div_left (by norm_num) (by norm_num)
  simp only [leapDays, isLeap, Bool.or_eq_true, Bool.and_eq_true, beq_iff_eq, bne_iff_ne,
    ne_eq, decide_eq_true_eq] at *
  rw [h4, h100, h400]
  split_ifs at * <;> omega

theorem daysBeforeMonth_twelve (y : Nat) :
    daysBeforeMonth y 12 = 334 + (if isLeap y then 1 else 0) := by
  show daysBeforeMonth y (11 + 1) = _
  simp only [daysBeforeMonth, daysInMonth]
  cases h : isLeap y <;> simp [h]

theorem daysBeforeYear_succ (p : Nat) :
    daysBeforeYear (p + 2) = daysBeforeYear (p + 1) + 365 + (if isLeap (p + 1) then 1 else 0) := by
  have e1 : p + 2 - 1 = p + 1 := rfl
  have e2 : p + 1 - 1 = p := rfl
  simp only [daysBeforeYear, e1, e2, leapDays_succ]
  ring

theorem nextMonthFirst_eq (y m : Nat) (hy : 1 ≤ y) (hm1 : 1 ≤ m) (hm2 : m ≤ 12) :
    (if m = 12 then toDays (y + 1) 1 1 else toDays y (m + 1) 1) =
      toDays y m (daysInMonth y m) + 1 := by
  by_cases h12 : m = 12
  · subst h12
    obtain ⟨p, rfl⟩ : ∃ p, y = p + 1 := ⟨y - 1, by omega⟩
    simp only [if_pos, toDays]
    have e2 : p + 1 + 1 = p + 2 := rfl
    rw [e2, daysBeforeYear_succ, daysBeforeMonth_twelve]
    have e3 : daysBeforeMonth (p + 2) 1 = 0 := rfl
    have e4 : daysInMonth (p + 1) 12 = 31 := rfl
    rw [e3, e4]
    cases h : isLeap (p + 1) <;> simp [h]
  · have hm2' : m ≤ 11 := by omega
    rw [if_neg h12]
    interval_cases m <;>
      cases h : isLeap y <;>
        simp [toDays, daysBeforeMonth, daysInMonth, h]

/-- C4: for every year (from year 1 on) and month 1..12, the CLI
calendar-month period is the inclusive range from the 1st to the last day of
that month — December rolls over to January of the next year and month
lengths, including leap-year February, are respected.  Concretely, February
2024 gives [2024-02-01, 2024-02-29] and December 2023 gives
[2023-12-01, 2023-12-31]. -/
theorem c4_month_range (y m : Nat) (hy : 1 ≤ y) (hm1 : 1 ≤ m) (hm2 : m ≤ 12) :
    monthRange y m = (toDays y m 1, toDays y m (daysInMonth y m)) ∧
    monthRange 2024 2 = (toDays 2024 2 1, toDays 2024 2 29) ∧
    monthRange 2023 12 = (toDays 2023 12 1, toDays 2023 12 31) := by
  refine ⟨?_, by decide, by decide⟩
  rw [monthRange, nextMonthFirst_eq y m hy hm1 hm2]
  simp

theorem c4_witness :
    (monthRange 2024 2 = (toDays 2024 2 1, toDays 2024 2 (daysInMonth 2024 2)) ∧
     monthRange 2024 2 = (toDays 2024 2 1, toDays 2024 2 29) ∧
     monthRange 2023 12 = (toDays 2023 12 1, toDays 2023 12 31)) :=
  c4_month_range 2024 2 (by decide) (by decide) (by decide)

theorem catRowOrder_trans {a b c : String × Rat}
    (h1 : catRowOrder a b) (h2 : catRowOrder b c) : catRowOrder a c := by
  rcases h1 with h1 | ⟨h1, h1'⟩ <;> rcases h2 with h2 | ⟨h2, h2'⟩
  · exact Or.inl (h2.trans h1)
  · exact Or.inl (h2 ▸ h1)
  · exact Or.inl (h1 ▸ h2)
  · exact Or.inr ⟨h1.trans h2, h1'.trans h2'⟩

theorem orderedInsert_desc_sorted (x : String × Rat) :
    ∀ l : List (String × Rat), l.Sorted catRowOrder → (∀ y ∈ l, x.1 < y.1) →
      (List.orderedInsert (fun a b => b.2 ≤ a.2) x l).Sorted catRowOrder
  | [], _, _ => List.sorted_singleton x
  | y :: ys, hs, hx => by
    rw [List.orderedInsert]
    split_ifs with hr
    · refine List.sorted_cons.mpr ⟨?_, hs⟩
      have hxy : catRowOrder x y := by
        rcases lt_or_eq_of_le hr with h | h
        · exact Or.inl h
        · exact Or.inr ⟨h.symm, hx _ (List.mem_cons_self _ _)⟩
      intro z hz
      rcases List.mem_cons.mp hz with rfl | hz'
      · exact hxy
      · exact catRowOrder_trans hxy (List.rel_of_sorted_cons hs _ hz')
    · refine List.sorted_cons.mpr ⟨?_, orderedInsert_desc_sorted x ys hs.of_cons
        (fun z hz => hx z (List.mem_cons_of_mem _ hz))⟩
      intro z hz
      rcases (List.mem_orderedInsert _).mp hz with rfl | hz'
      · exact Or.inl (lt_of_not_le hr)
      · exact List.rel_of_sorted_cons hs _ hz'

theorem sortByAmountDesc_sorted :
    ∀ rows : List (String × Rat), rows.Pairwise (fun a b => a.1 < b.1) →
      (sortByAmountDesc rows).Sorted catRowOrder
  | [], _ => List.sorted_nil
  | x :: xs, h => by
    have hpw := List.pairwise_cons.mp h
    show (List.orderedInsert _ x (List.insertionSort _ xs)).Sorted catRowOrder
    refine orderedInsert_desc_sorted x _ (sortByAmountDesc_sorted xs hpw.2) ?_
    intro y hy
    exact hpw.1 y ((List.mem_insertionSort _).mp hy)

theorem byCatRows_pairwise_fst (l : List Record) :
    (byCatRows l).Pairwise fun a b => a.1 < b.1 := by
  have h1 : (sortedCats l).Sorted (· ≤ ·) := List.sorted_insertionSort _ _
  have h2 : (sortedCats l).Nodup :=
    ((List.perm_insertionSort _ _).nodup_iff).mpr (List.nodup_dedup _)
  have h3 : (sortedCats l).Sorted (· < ·) := h1.lt_of_le h2
  rw [byCatRows, List.pairwise_map]
  simpa using h3

theorem sumFor_cons (r : Record) (l : List Record) (c : String) :
    sumFor (r :: l) c = (if r.category = c then r.amount else 0) + sumFor l c := by
  by_cases h : r.category = c <;> simp [sumFor, h]

theorem sum_map_addFn {α : Type} (f g : α → Rat) :
    ∀ l : List α, (l.map fun x => f x + g x).sum = (l.map f).sum + (l.map g).sum
  | [] => by simp
  | x :: xs => by
    simp only [List.map_cons, List.sum_cons, sum_map_addFn f g xs]
    ring

theorem sum_map_ite_notmem (c₀ : String) (v : Rat) :
    ∀ cs : List String, c₀ ∉ cs → (cs.map fun c => if c₀ = c then v else 0).sum = 0
  | [], _ => rfl
  | c :: cs', h => by
    have h1 : c₀ ≠ c := fun e => h (e ▸ List.mem_cons_self c cs')
    rw [List.map_cons, List.sum_cons, if_neg h1,
      sum_map_ite_notmem c₀ v cs' (fun hm => h (List.mem_cons_of_mem _ hm))]
    simp

theorem sum_map_ite_single (c₀ : String) (v : Rat) :
    ∀ cs : List String, cs.Nodup → c₀ ∈ cs →
      (cs.map fun c => if c₀ = c then v else 0).sum = v
  | [], _, hm => absurd hm (List.not_mem_nil c₀)
  | c :: cs', hnd, hm => by
    rcases List.mem_cons.mp hm with rfl | hm'
    · have h1 : c₀ ∉ cs' := (List.nodup_cons.mp hnd).1
      rw [List.map_cons, List.sum_cons, sum_map_ite_notmem c₀ v cs' h1, if_pos rfl]
      simp
    · have h1 : c₀ ≠ c := fun e => (List.nodup_cons.mp hnd).1 (e ▸ hm')
      simp only [List.map_cons, List.sum_cons, if_neg h1,
        sum_map_ite_single c₀ v cs' (List.nodup_cons.mp hnd).2 hm']
      ring

theorem sum_sumFor (cs : List String) (hnd : cs.Nodup) :
    ∀ l : List Record, (∀ r ∈ l, r.category ∈ cs) →
      (cs.map (sumFor l)).sum = totalAmount l
  | [], _ => by
    have : ∀ x ∈ cs.map (sumFor []), x = 0 := by
      intro x hx
      rcases List.mem_map.mp hx with ⟨c, _, rfl⟩
      rfl
    rw [List.sum_eq_zero this]
    rfl
  | r :: l', hcov => by
    have hcov' : ∀ s ∈ l', s.category ∈ cs := fun s hs => hcov s (List.mem_cons_of_mem _ hs)
    calc (cs.map (sumFor (r :: l'))).sum
        = (cs.map fun c => (if r.category = c then r.amount else 0) + sumFor l' c).sum := by
          refine congrArg List.sum (List.map_congr_left ?_)
          intro c _
          exact sumFor_cons r l' c
      _ = (cs.map fun c => if r.category = c then r.amount else 0).sum
            + (cs.map (sumFor l')).sum := sum_map_addFn _ _ cs
      _ = r.amount + totalAmount l' := by
          rw [sum_map_ite_single r.category r.amount cs hnd (hcov r (List.mem_cons_self r l')),
            sum_sumFor cs hnd l' hcov']
      _ = totalAmount (r :: l') := by simp [totalAmount]

theorem sortedCats_cover (l : List Record) : ∀ r ∈ l, r.category ∈ sortedCats l := by
  intro r hr
  rw [sortedCats]
  exact (List.mem_insertionSort _).mpr (List.mem_dedup.mpr (List.mem_map_of_mem _ hr))

theorem sortedCats_nodup (l : List Record) : (sortedCats l).Nodup :=
  ((List.perm_insertionSort _ _).nodup_iff).mpr (List.nodup_dedup _)

/-- C5: the total of a ledger equals the sum of the per-category sums that
`byCategory` produces, and the total of an empty ledger is 0. -/
theorem c5_total_eq_byCategory_sum (l : List Record) :
    totalAmount l = ((byCategory l).map Prod.snd).sum ∧
    totalAmount ([] : List Record) = 0 := by
  refine ⟨?_, rfl⟩
  have h1 : ((byCategory l).map Prod.snd).Perm ((byCatRows l).map Prod.snd) :=
    (List.perm_insertionSort _ _).map _
  rw [h1.sum_eq]
  have h2 : (byCatRows l).map Prod.snd = (sortedCats l).map (sumFor l) := by
    rw [byCatRows, List.map_map]
    rfl
  rw [h2, sum_sumFor (sortedCats l) (sortedCats_nodup l) l (sortedCats_cover l)]

/-- C7 (amended): `byCategory` groups records by exact category value — its
row keys are exactly the distinct categories of the ledger — sums amount per
group, and returns the rows sorted descending by summed amount.  Ties are not
broken by first-appearance order as claimed: the `groupby` step emits its
groups in ascending key order, and for category tables within numpy's stable
insertion-sort regime (at most 16 rows) tied rows therefore come out in
ascending category-key order; beyond that size the program's tie order is an
unspecified introsort artifact. -/
theorem c7_amended_byCategory (l : List Record) :
    ((byCategory l).map Prod.fst).Perm ((l.map Record.category).dedup) ∧
    (∀ p ∈ byCategory l, p.2 = sumFor l p.1) ∧
    (byCategory l).Sorted (fun a b => b.2 ≤ a.2) ∧
    ((byCatRows l).length ≤ 16 → (byCategory l).Sorted catRowOrder) := by
  refine ⟨?_, ?_, List.sorted_insertionSort _ _,
    fun _ => sortByAmountDesc_sorted _ (byCatRows_pairwise_fst l)⟩
  · have h1 : ((byCategory l).map Prod.fst).Perm ((byCatRows l).map Prod.fst) :=
      (List.perm_insertionSort _ _).map _
    have h2 : (byCatRows l).map Prod.fst = sortedCats l := by
      rw [byCatRows, List.map_map]
      exact List.map_id (sortedCats l)
    rw [h2] at h1
    exact h1.trans (List.perm_insertionSort _ _)
  · intro p hp
    have hp' : p ∈ byCatRows l := (List.mem_insertionSort _).mp hp
    rcases List.mem_map.mp hp' with ⟨c, _, rfl⟩
    rfl

theorem c7_amended_witness :
    (byCategory [⟨0, "B", 10, ""⟩, ⟨0, "A", 10, ""⟩]).Sorted catRowOrder :=
  (c7_amended_byCategory [⟨0, "B", 10, ""⟩, ⟨0, "A", 10, ""⟩]).2.2.2 (by
    rw [byCatRows, List.length_map, sortedCats, (List.perm_insertionSort _ _).length_eq]
    decide)

/-- C7 counterexample: in a ledger where category B appears before category A
and both groups sum to 10, the code returns the tied rows in ascending key
order, `[(A, 10), (B, 10)]`, while the claimed first-appearance tie-break
predicts `[(B, 10), (A, 10)]`: the orders differ. -/
theorem c7_counterexample :
    byCategory [⟨0, "B", 10, ""⟩, ⟨0, "A", 10, ""⟩] = [("A", 10), ("B", 10)] ∧
    byCategoryFirstAppearance [⟨0, "B", 10, ""⟩, ⟨0, "A", 10, ""⟩] =
      [("B", 10), ("A", 10)] ∧
    byCategory [⟨0, "B", 10, ""⟩, ⟨0, "A", 10, ""⟩] ≠
      byCategoryFirstAppearance [⟨0, "B", 10, ""⟩, ⟨0, "A", 10, ""⟩] := by
  have hBA : ¬ ("B" : String) ≤ "A" := fun h => by
    have := String.le_iff_toList_le.mp h
    revert this
    decide
  have hcode : byCategory [⟨0, "B", 10, ""⟩, ⟨0, "A", 10, ""⟩] = [("A", 10), ("B", 10)] := by
    simp [byCategory, byCatRows, sortedCats, sortByAmountDesc, sumFor, hBA,
      List.insertionSort, List.orderedInsert, List.dedup]
  have hspec : byCategoryFirstAppearance [⟨0, "B", 10, ""⟩, ⟨0, "A", 10, ""⟩] =
      [("B", 10), ("A", 10)] := by
    simp [byCategoryFirstAppearance, firstAppearanceCats, sortByAmountDesc, sumFor,
      List.insertionSort, List.orderedInsert]
  refine ⟨hcode, hspec, ?_⟩
  rw [hcode, hspec]
  simp

end ExpenseTracker
